import Mathlib

/-!
Shallow embedding of the adaptive practice scheduler in `src/App.tsx`
("Word Wizard"): content parsing, weighted round selection, performance
ledger updates, mastery handling, daily-goal/streak progress tracking,
persisted-state loading and backup export/import.

Strings are modelled as lists of characters (`Str`).  JavaScript numbers
that the code only ever uses as non-negative integers are modelled as
`Nat`; the floating-point selection weights are modelled as exact
rationals (`ℚ`); a JavaScript number that can be `NaN` is modelled as
`Option Int` with `none` standing for `NaN`.  Randomness is injected:
the uniform draw, the shuffle permutation and the random-index stream
are explicit parameters, as the spec's design notes prescribe.
-/

namespace WordWizard

/-- Strings as character lists (JS strings). -/
abbrev Str := List Char

/-- Whitespace for `String.prototype.trim` (the characters relevant here). -/
def isWs (c : Char) : Bool := c = ' ' || c = '\t' || c = '\r' || c = '\n'

/-- `s.trim()`: drop whitespace from both ends. -/
def trimStr (s : Str) : Str :=
  ((s.dropWhile isWs).reverse.dropWhile isWs).reverse

/-- `String.prototype.split` on a character class: split `s` at every
character satisfying `p`.  Always returns a non-empty list of parts,
like the JS method. -/
def splitOnPred (p : Char → Bool) : Str → List Str
  | [] => [[]]
  | c :: cs =>
    if p c then [] :: splitOnPred p cs
    else
      match splitOnPred p cs with
      | [] => [[c]]
      | s :: ss => (c :: s) :: ss

/-- The separator class of `parseInputData`: ASCII and full-width colon
(`/[:：]/` in the source). -/
def isSepChar (c : Char) : Bool := c = ':' || c = '：'

/-- Newline, for `text.split('\n')`. -/
def isNL (c : Char) : Bool := c = '\n'

/-- An `Item` of the active pool (`WordPair` in the source). -/
structure WordPair where
  id : Str
  char : Str
  word : Str
deriving DecidableEq, Repr, Inhabited

/-- The pair built from line number `i` with raw split parts `p0`, `p1`:
`{ id: "word-" + p0.trim() + "-" + i, char: p0.trim(), word: p1.trim() }`. -/
def mkPair (i : Nat) (p0 p1 : Str) : WordPair :=
  { id := ("word-".data ++ trimStr p0 ++ "-".data ++ (toString i).data)
    char := trimStr p0
    word := trimStr p1 }

/-- One step of `parseInputData`'s `.map((line, index) => ...)`: split the
line on the colon class; keep it only if there are at least two parts. -/
def parseLine (i : Nat) (line : Str) : Option WordPair :=
  match splitOnPred isSepChar line with
  | p0 :: p1 :: _ => some (mkPair i p0 p1)
  | _ => none

/-- `parseInputData` (src/App.tsx lines 22-37): split the text into lines,
parse each line with its index, drop unparsable lines and lines whose
trimmed `char` is empty. -/
def parseInputData (text : Str) : List WordPair :=
  if text = [] then []
  else
    (((splitOnPred isNL text).enum.filterMap fun x => parseLine x.1 x.2).filter
      fun item => decide (0 < item.char.length))

/-- First part of a line under the colon split (`parts[0]`). -/
def firstPart (line : Str) : Str := (splitOnPred isSepChar line).headI

/-- Second part of a line under the colon split (`parts[1]`). -/
def secondPart (line : Str) : Str := (splitOnPred isSepChar line).tail.headI

/-- The keep-rule of claim C10, written from the spec's words: a line is
kept iff it contains a separator and its trimmed first part is non-empty,
and then yields the pair built from its first two parts. -/
def specKeep (i : Nat) (line : Str) : Option WordPair :=
  if line.any isSepChar && !(trimStr (firstPart line)).isEmpty then
    some (mkPair i (firstPart line) (secondPart line))
  else none

/-- The parser as described by the spec: per-line keep-rule over the
enumerated lines. -/
def specParse (text : Str) : List WordPair :=
  (splitOnPred isNL text).enum.filterMap fun x => specKeep x.1 x.2

/-- One `PerformanceRecord` (`WordStats` entry in src/types). -/
structure WordStat where
  correct : Nat
  incorrect : Nat
  consecutiveCorrect : Nat
deriving DecidableEq, Repr

/-- The zeroed record used by `prev[char] || {correct:0, incorrect:0,
consecutiveCorrect:0}` on first access. -/
def zeroStat : WordStat := ⟨0, 0, 0⟩

/-- The Performance Ledger: total map from `char` to its record; an
absent key of the JS object is the zeroed record, exactly what the
`|| {..0..}` default in the source produces. -/
def WordStats := Str → WordStat

/-- `MASTERY_THRESHOLD` (src/App.tsx line 19). -/
def MASTERY_THRESHOLD : Nat := 20

/-- The stats update of the correct branch of `handleOptionClick`
(src/App.tsx lines 466-480): `correct += 1`, `consecutiveCorrect += 1`,
returning the updated ledger together with the post-update
`consecutiveCorrect`. -/
def recordCorrect (s : WordStats) (c : Str) : WordStats × Nat :=
  let cur := s c
  let newConsecutive := cur.consecutiveCorrect + 1
  (fun x => if x = c then
      { cur with correct := cur.correct + 1, consecutiveCorrect := newConsecutive }
    else s x,
   newConsecutive)

/-- The stats update of the incorrect branch of `handleOptionClick`
(src/App.tsx lines 505-514): `incorrect += 1`, `consecutiveCorrect`
reset to 0. -/
def recordIncorrect (s : WordStats) (c : Str) : WordStats :=
  let cur := s c
  fun x => if x = c then
      { cur with incorrect := cur.incorrect + 1, consecutiveCorrect := 0 }
    else s x

/-- `n` consecutive correct answers for `c` with no intervening
incorrect answer. -/
def repeatCorrect : Nat → WordStats → Str → WordStats
  | 0, s, _ => s
  | n + 1, s, c => repeatCorrect n (recordCorrect s c).1 c

/-- Selection weight (src/App.tsx line 309):
`10 * (1 + incorrect * 3) / (1 + correct * 0.5)`, in exact rationals. -/
def weight (s : WordStat) : ℚ :=
  10 * (1 + (s.incorrect : ℚ) * 3) / (1 + (s.correct : ℚ) * (1 / 2))

/-- `totalWeight` (src/App.tsx line 313): sum of the items' weights. -/
def totalWeight (l : List WordPair) (stats : WordStats) : ℚ :=
  (l.map fun w => weight (stats w.char)).sum

/-- The selection loop of `setupRound` (src/App.tsx lines 317-323):
subtract each weight from the remaining draw in pool order and stop at
the first item where the remainder drops to `≤ 0`; `none` when the loop
falls through without triggering. -/
def walkSelect (stats : WordStats) : List WordPair → ℚ → Option WordPair
  | [], _ => none
  | w :: ws, r =>
    if r - weight (stats w.char) ≤ 0 then some w
    else walkSelect stats ws (r - weight (stats w.char))

/-- Roulette-wheel selection as the spec words it: walk the pool in
order accumulating weights onto `acc` and return the first item whose
cumulative weight reaches the draw `d`. -/
def firstCum (stats : WordStats) : List WordPair → ℚ → ℚ → Option WordPair
  | [], _, _ => none
  | w :: ws, acc, d =>
    if d ≤ acc + weight (stats w.char) then some w
    else firstCum stats ws (acc + weight (stats w.char)) d

/-- A `Round`: the selected target plus the presented options. -/
structure Round where
  target : WordPair
  options : List WordPair
deriving DecidableEq, Repr

/-- The distractor `for`-loop of `setupRound` (src/App.tsx lines
334-343): walk the shuffled distractors, push each whose `char` is not
yet used (the used set is exactly the chars of the accumulator), and
break once two are collected. -/
def forPick : List WordPair → List WordPair → List WordPair
  | [], acc => acc
  | d :: ds, acc =>
    let acc2 := if acc.all fun x => x.char ≠ d.char then acc ++ [d] else acc
    if 2 ≤ acc2.length then acc2 else forPick ds acc2

/-- The fill-up `while`-loop of `setupRound` (src/App.tsx lines
346-353), with the random indices injected as a stream; the source loop
draws fresh randoms unboundedly, so the stream models the draws actually
consumed. -/
def whileFill (l : List WordPair) (tchar : Str) : List Nat → List WordPair → List WordPair
  | [], acc => acc
  | i :: is, acc =>
    if acc.length < 2 && 3 ≤ l.length then
      let r := l.getD (i % l.length) default
      let acc2 :=
        if r.char ≠ tchar && acc.all fun x => x.char ≠ r.char then acc ++ [r] else acc
      whileFill l tchar is acc2
    else acc

/-- `setupRound` (src/App.tsx lines 292-363) with the random sources
injected: `draw` is `Math.random() * totalWeight`, `σ` is the random
shuffle (`.sort(() => 0.5 - Math.random())`), `rands` the random indices
of the fill-up loop.  An empty pool yields no round (`setTargetWord
(null)`).  The target is initialised to `currentList[0]` before the
selection loop, so the `if (!target)` fallback of the source can never
fire (a `WordPair` is always truthy); `Option.getD` models
initialisation plus loop. -/
def setupRound (σ : List WordPair → List WordPair) (rands : List Nat)
    (l : List WordPair) (stats : WordStats) (draw : ℚ) : Option Round :=
  match l with
  | [] => none
  | w :: ws =>
    let target := (walkSelect stats (w :: ws) draw).getD w
    let potentialDistractors := (w :: ws).filter fun x => x.char ≠ target.char
    let shuffledDistractors := σ potentialDistractors
    let selected := forPick shuffledDistractors []
    let selected2 := whileFill (w :: ws) target.char rands selected
    let options := σ (target :: selected2)
    some ⟨target, options⟩

/-- The line test of `handleMastery` (src/App.tsx lines 417-420):
`parts[0]?.trim() === word.char`. -/
def lineMatches (c : Str) (line : Str) : Bool := trimStr (firstPart line) = c

/-- Join lines back with `'\n'` (`newLines.join('\n')`). -/
def joinNL (lines : List Str) : Str := (lines.intersperse ['\n']).flatten

/-- The content move of `handleMastery` (src/App.tsx lines 398-438):
find the first input line whose trimmed first part equals the mastered
`char`, remove it from the input text and append it to the learned text
(with a separating newline when the learned text is non-empty); when no
line matches, nothing moves. -/
def handleMastery (c : Str) (input learned : Str) : Str × Str :=
  let lines := splitOnPred isNL input
  match lines.findIdx? (lineMatches c) with
  | some i =>
    let line := lines.getD i []
    let newInput := joinNL (lines.eraseIdx i)
    let newLearned := (if learned = [] then [] else learned ++ ['\n']) ++ line
    (newInput, newLearned)
  | none => (input, learned)

/-- The core state touched by an answer: the ledger and the two content
texts (the word list itself is `parseInputData` of the input text). -/
structure CoreSt where
  stats : WordStats
  input : Str
  learned : Str

/-- `handleOptionClick` (src/App.tsx lines 441-523), restricted to the
core effects: on `selected.id === targetWord.id` record a correct
answer, signal mastery when the returned `consecutiveCorrect` reaches
`MASTERY_THRESHOLD` and then move the item's line from input to learned;
otherwise record an incorrect answer.  Returns the new state, whether
the answer was correct, and whether mastery fired. -/
def handleOptionClick (selected target : WordPair) (st : CoreSt) :
    CoreSt × Bool × Bool :=
  if selected.id = target.id then
    let res := recordCorrect st.stats target.char
    let isMastered : Bool := MASTERY_THRESHOLD ≤ res.2
    if isMastered then
      let mv := handleMastery target.char st.input st.learned
      (⟨res.1, mv.1, mv.2⟩, true, true)
    else
      (⟨res.1, st.input, st.learned⟩, true, false)
  else
    (⟨recordIncorrect st.stats target.char, st.input, st.learned⟩, false, false)

/-- The in-memory daily-goal/streak state of the Progress Tracker. -/
structure ProgressState where
  dailyGoal : Nat
  dailyProgress : Nat
  streak : Nat
  goalMetToday : Bool
deriving DecidableEq, Repr

/-- `updateProgress` (src/App.tsx lines 160-175): increment the daily
progress; when the new progress reaches the goal and the goal was not
yet met today, increment the streak, set the goal-met flag and trigger
the celebration.  The returned boolean is the celebration event. -/
def updateProgress (p : ProgressState) : ProgressState × Bool :=
  let newProgress := p.dailyProgress + 1
  if p.dailyGoal ≤ newProgress && !p.goalMetToday then
    ({ p with dailyProgress := newProgress, streak := p.streak + 1,
              goalMetToday := true }, true)
  else
    ({ p with dailyProgress := newProgress }, false)

/-- `n` successive `updateProgress` calls (one per correct answer on the
same day). -/
def advanceN : Nat → ProgressState → ProgressState
  | 0, p => p
  | n + 1, p => advanceN n (updateProgress p).1

/-- The persisted string store (the `wordWizard_*` keys of
localStorage); `none` is an absent key. -/
structure Store where
  input : Option Str
  learned : Option Str
  stats : Option Str
  totalScore : Option Str
  streak : Option Str
  dailyGoal : Option Str
  dailyProgress : Option Str
  lastDate : Option Str
  goalMet : Option Str
deriving DecidableEq, Repr

/-- `localStorage.getItem(k) || d`: both an absent key and an empty
string are falsy and fall back to the default. -/
def orDefault (x : Option Str) (d : Str) : Str :=
  match x with
  | none => d
  | some s => if s = [] then d else s

/-- Decimal digits of a rendered number. -/
def digitsToNat (s : Str) : Nat := s.foldl (fun a c => a * 10 + (c.toNat - 48)) 0

/-- `parseInt(s, 10)`: skip leading whitespace, accept an optional sign,
parse the leading run of decimal digits; `none` models `NaN` (no digit
to parse). -/
def jsParseInt (s : Str) : Option Int :=
  let t := s.dropWhile isWs
  match t with
  | '+' :: rest =>
    let ds := rest.takeWhile Char.isDigit
    if ds = [] then none else some (digitsToNat ds)
  | '-' :: rest =>
    let ds := rest.takeWhile Char.isDigit
    if ds = [] then none else some (-(digitsToNat ds : Int))
  | _ =>
    let ds := t.takeWhile Char.isDigit
    if ds = [] then none else some (digitsToNat ds)

/-- One calendar day in milliseconds. -/
def dayMs : Nat := 86400000

/-- Little-endian decimal digits with fuel. -/
def natDigitsAux : Nat → Nat → List Nat
  | 0, _ => []
  | _ + 1, 0 => []
  | fuel + 1, n => n % 10 :: natDigitsAux fuel (n / 10)

/-- Calendar dates are modelled by their day number; `dayStr d` is the
date string `toDateString` produces for day `d` (rendered here as the
decimal day number: the model only needs the rendering to be injective
and parseable back). -/
def dayStr (d : Nat) : Str :=
  if d = 0 then ['0']
  else ((natDigitsAux (d + 1) d).reverse.map fun k => Char.ofNat (48 + k))

/-- `new Date(s).getTime() / dayMs` on a well-formed date string; `none`
models an invalid date (`NaN` time), whose comparisons are all false. -/
def parseDay (s : Str) : Option Nat :=
  if s ≠ [] && s.all Char.isDigit then some (digitsToNat s) else none

/-- `Math.ceil(a / b)` on naturals. -/
def ceilDiv (a b : Nat) : Nat := (a + b - 1) / b

/-- The in-memory values `loadProgress` produces.  Counters are
`Option Int` because `parseInt` can produce `NaN` (`none`). -/
structure Loaded where
  dailyGoal : Option Int
  score : Option Int
  dailyProgress : Option Int
  streak : Option Int
  goalMetToday : Bool
deriving DecidableEq, Repr

/-- `loadProgress` (src/App.tsx lines 118-158) at time `now` (ms since
epoch): parse the goal (kept at the initial 10 when the stored value is
absent or empty), the total score, streak and progress; when the stored
last-active date is today's date string, restore the saved day values;
otherwise roll the day over — progress 0, goal-met false, last date
today — and break the streak exactly when
`Math.ceil(|now - lastMidnight| / dayMs) > 1` and the stored goal-met
flag is not `'true'`.  Returns the loaded values and the store after the
rollover writes. -/
def loadProgress (st : Store) (now : Nat) : Loaded × Store :=
  let goalLoaded : Option Int :=
    match st.dailyGoal with
    | none => some 10
    | some s => if s = [] then some 10 else jsParseInt s
  let score := jsParseInt (orDefault st.totalScore ['0'])
  let today := dayStr (now / dayMs)
  let savedStreak := jsParseInt (orDefault st.streak ['0'])
  let savedProgress := jsParseInt (orDefault st.dailyProgress ['0'])
  let savedGoalMet : Bool := st.goalMet = some "true".data
  if st.lastDate = some today then
    (⟨goalLoaded, score, savedProgress, savedStreak, savedGoalMet⟩, st)
  else
    let st2 := { st with dailyProgress := some ['0'], goalMet := some "false".data,
                         lastDate := some today }
    match st.lastDate with
    | some ld =>
      let missed : Bool :=
        match parseDay ld with
        | some d => 1 < ceilDiv (Int.natAbs ((now : Int) - (d * dayMs : Nat))) dayMs
        | none => false
      if missed && !savedGoalMet then
        (⟨goalLoaded, score, some 0, some 0, false⟩, { st2 with streak := some ['0'] })
      else
        (⟨goalLoaded, score, some 0, savedStreak, false⟩, st2)
    | none => (⟨goalLoaded, score, some 0, some 0, false⟩, st2)

/-- Modelled from the spec: `DEFAULT_DATA` lives in `src/constants.ts`,
which is not part of the sources; the spec only says it is the initial
newline-delimited `char:word` active-pool text.  No claim depends on its
contents, only on it being a fixed non-empty text. -/
def DEFAULT_DATA : Str := "天:天空\n地:土地\n人:人民".data

/-- The parsed stats JSON object: `char → record`, in key order. -/
abbrev JStats := List (Str × WordStat)

/-- Opening brace character. -/
def lbrace : Char := Char.ofNat 123

/-- Closing brace character. -/
def rbrace : Char := Char.ofNat 125

/-- A JSON string literal (the stats keys contain no character needing
an escape, so quoting is plain). -/
def quoteStr (s : Str) : Str := '"' :: s ++ ['"']

/-- Decimal rendering of an integer, as `JSON.stringify` and
`Number.prototype.toString` render it. -/
def intToStr (n : Int) : Str := (toString n).data

/-- `JSON.stringify` of one stats record, in the key order the source
maintains (`correct`, `incorrect`, `consecutiveCorrect`). -/
def statStringify (v : WordStat) : Str :=
  lbrace ::
    (quoteStr "correct".data ++ ':' :: intToStr v.correct ++
     ',' :: quoteStr "incorrect".data ++ ':' :: intToStr v.incorrect ++
     ',' :: quoteStr "consecutiveCorrect".data ++ ':' :: intToStr v.consecutiveCorrect ++
     [rbrace])

/-- `JSON.stringify` of the whole stats object. -/
def statsStringify (o : JStats) : Str :=
  lbrace ::
    (((o.map fun e => quoteStr e.1 ++ ':' :: statStringify e.2).intersperse [',']).flatten
      ++ [rbrace])

/-- Consume one expected character. -/
def expectChar (c : Char) : Str → Option Str
  | x :: xs => if x = c then some xs else none
  | [] => none

/-- Consume an expected literal. -/
def expectPrefixStr (pat : Str) (s : Str) : Option Str :=
  if s.take pat.length = pat then some (s.drop pat.length) else none

/-- Read a quoted string literal (no escapes, as produced above). -/
def readStringLit (s : Str) : Option (Str × Str) :=
  match expectChar '"' s with
  | some rest =>
    let content := rest.takeWhile fun c => c ≠ '"'
    match expectChar '"' (rest.dropWhile fun c => c ≠ '"') with
    | some r2 => some (content, r2)
    | none => none
  | none => none

/-- Read a natural number literal. -/
def readNatLit (s : Str) : Option (Nat × Str) :=
  let ds := s.takeWhile Char.isDigit
  if ds = [] then none else some (digitsToNat ds, s.dropWhile Char.isDigit)

/-- Read one stats record in canonical key order. -/
def readStat (s : Str) : Option (WordStat × Str) :=
  match expectChar lbrace s with
  | none => none
  | some r0 =>
    match expectPrefixStr (quoteStr "correct".data ++ [':']) r0 with
    | none => none
    | some r1 =>
      match readNatLit r1 with
      | none => none
      | some (cv, r2) =>
        match expectPrefixStr (',' :: quoteStr "incorrect".data ++ [':']) r2 with
        | none => none
        | some r3 =>
          match readNatLit r3 with
          | none => none
          | some (iv, r4) =>
            match expectPrefixStr (',' :: quoteStr "consecutiveCorrect".data ++ [':']) r4 with
            | none => none
            | some r5 =>
              match readNatLit r5 with
              | none => none
              | some (kv, r6) =>
                match expectChar rbrace r6 with
                | none => none
                | some r7 => some (⟨cv, iv, kv⟩, r7)

/-- Read the comma-separated entries of the stats object, with fuel. -/
def readEntries : Nat → Str → JStats → Option (JStats × Str)
  | 0, _, _ => none
  | fuel + 1, s, acc =>
    match readStringLit s with
    | none => none
    | some (k, r1) =>
      match expectChar ':' r1 with
      | none => none
      | some r2 =>
        match readStat r2 with
        | none => none
        | some (v, r3) =>
          match expectChar ',' r3 with
          | some r4 => readEntries fuel r4 (acc ++ [(k, v)])
          | none =>
            match expectChar rbrace r3 with
            | some r5 => some (acc ++ [(k, v)], r5)
            | none => none

/-- `JSON.parse` on a stats document in the canonical form
`statsStringify` emits (the only form the source ever writes); `none`
models a parse error (`JSON.parse` throwing). -/
def statsParse (s : Str) : Option JStats :=
  match expectChar lbrace s with
  | none => none
  | some r =>
    match expectChar rbrace r with
    | some r2 => if r2 = [] then some [] else none
    | none =>
      match readEntries (s.length + 1) r [] with
      | some (es, rem) => if rem = [] then some es else none
      | none => none

/-- The parsed backup payload `parsed.data`.  An outer `none` marks an
absent field (`undefined`, skipped by the import); numeric fields carry
an inner `Option Int` whose `none` is JSON `null` — which is exactly
what `JSON.stringify` turns an exported `NaN` into; nullable string
fields likewise carry JSON `null` as inner `none`. -/
structure BackupData where
  input : Option Str
  learned : Option Str
  stats : Option JStats
  totalScore : Option (Option Int)
  streak : Option (Option Int)
  dailyGoal : Option (Option Int)
  dailyProgress : Option (Option Int)
  lastDate : Option (Option Str)
  goalMet : Option (Option Str)
deriving DecidableEq, Repr

/-- `handleExportData` (src/App.tsx lines 200-226): assemble the backup
document's `data` object from the store; `JSON.parse` of a malformed
stats string throws, so the export produces nothing (`none`). -/
def handleExportData (st : Store) : Option BackupData :=
  match statsParse (orDefault st.stats [lbrace, rbrace]) with
  | none => none
  | some o =>
    some { input := some (orDefault st.input DEFAULT_DATA)
           learned := some (orDefault st.learned [])
           stats := some o
           totalScore := some (jsParseInt (orDefault st.totalScore ['0']))
           streak := some (jsParseInt (orDefault st.streak ['0']))
           dailyGoal := some (jsParseInt (orDefault st.dailyGoal "10".data))
           dailyProgress := some (jsParseInt (orDefault st.dailyProgress ['0']))
           lastDate := some st.lastDate
           goalMet := some st.goalMet }

/-- The per-field restore writes of `handleFileChange` (src/App.tsx
lines 249-257), in source order.  A present field is written
independently of the others; `d.totalScore.toString()` (and the other
numeric `toString` calls) throw a `TypeError` on `null`, aborting the
remaining writes but keeping the ones already made; `setItem(k, null)`
on the string fields coerces `null` to the string `"null"`.  Returns the
store after the writes and whether the whole restore ran without
throwing. -/
def applyImport (d : BackupData) (st : Store) : Store × Bool :=
  let st := match d.input with
    | some s => { st with input := some s }
    | none => st
  let st := match d.learned with
    | some s => { st with learned := some s }
    | none => st
  let st := match d.stats with
    | some o => { st with stats := some (statsStringify o) }
    | none => st
  match d.totalScore with
  | some none => (st, false)
  | dt =>
    let st := match dt with
      | some (some n) => { st with totalScore := some (intToStr n) }
      | _ => st
    match d.streak with
    | some none => (st, false)
    | ds =>
      let st := match ds with
        | some (some n) => { st with streak := some (intToStr n) }
        | _ => st
      match d.dailyGoal with
      | some none => (st, false)
      | dg =>
        let st := match dg with
          | some (some n) => { st with dailyGoal := some (intToStr n) }
          | _ => st
        match d.dailyProgress with
        | some none => (st, false)
        | dp =>
          let st := match dp with
            | some (some n) => { st with dailyProgress := some (intToStr n) }
            | _ => st
          let st := match d.lastDate with
            | some (some s) => { st with lastDate := some s }
            | some none => { st with lastDate := some "null".data }
            | none => st
          let st := match d.goalMet with
            | some (some s) => { st with goalMet := some s }
            | some none => { st with goalMet := some "null".data }
            | none => st
          (st, true)

/-- `handleFileChange` (src/App.tsx lines 232-273) on an already-read
file: `none` is a file whose JSON does not parse or whose parse has no
truthy `data` — the `catch` runs before any write; otherwise the
per-field restore runs. -/
def handleFileChange (payload : Option BackupData) (st : Store) : Store × Bool :=
  match payload with
  | none => (st, false)
  | some d => applyImport d st

/-- Export then import of the same store: the round trip of claim C9.
`none` when the export itself fails. -/
def roundTrip (st : Store) : Option (Store × Bool) :=
  (handleExportData st).map fun d => applyImport d st

/-! ## Concrete instances used by witnesses and counterexamples -/

/-- The all-zero ledger (fresh session). -/
def stats0 : WordStats := fun _ => zeroStat

/-- Sample pool items. -/
def w1 : WordPair := ⟨"word-天-0".data, "天".data, "天空".data⟩

/-- Sample pool items. -/
def w2 : WordPair := ⟨"word-地-1".data, "地".data, "土地".data⟩

/-- Sample pool items. -/
def w3 : WordPair := ⟨"word-人-2".data, "人".data, "人民".data⟩

/-- A ledger where `天` has 19 consecutive correct answers. -/
def statsNearMastery : WordStats :=
  fun c => if c = "天".data then ⟨5, 1, 19⟩ else zeroStat

/-- Core state one correct answer away from mastering `天`. -/
def coreStNearMastery : CoreSt :=
  ⟨statsNearMastery, "天:天空\n地:土地\n人:人民".data, []⟩

/-- A store whose last-active date is day 0, with streak 5 and the goal
not met; loaded at noon of day 1 (a gap of exactly one calendar day). -/
def storeDay0 : Store :=
  ⟨none, none, none, none, some "5".data, none, none, some ['0'], some "false".data⟩

/-- Noon of calendar day 1, in ms. -/
def noonDay1 : Nat := 129600000

/-- A store whose persisted total score is the non-numeric string
`"abc"`, with today's date as the last-active date at time 0. -/
def storeBadScore : Store :=
  ⟨none, none, none, some "abc".data, none, none, none, some ['0'], none⟩

/-- An import payload carrying a new input text and a `null` total score
(what exporting a `NaN` score produces). -/
def payloadPartial : BackupData :=
  ⟨some "X:Y".data, none, none, some none, none, none, none, none, none⟩

/-- A store the partial payload is imported into. -/
def storeBeforeImport : Store :=
  ⟨some "A:B".data, none, none, some ['1'], none, none, none, none, none⟩

/-- A store in canonical form except that the streak is stored as the
non-canonical numeric string `"007"`. -/
def storeNonCanon : Store :=
  ⟨some "a:b".data, some [], some (statsStringify []), some ['0'], some "007".data,
   some "10".data, some ['0'], some "123".data, some "true".data⟩

/-- A store with every persisted field present and canonical. -/
def storeCanon : Store :=
  ⟨some "a:b".data, some [], some (statsStringify [("a".data, ⟨1, 2, 3⟩)]), some ['0'],
   some "5".data, some "10".data, some ['7'], some "123".data, some "true".data⟩

/-! ## Library of helper lemmas -/

theorem splitOnPred_ne_nil (p : Char → Bool) : ∀ l : Str, splitOnPred p l ≠ []
  | [] => by simp [splitOnPred]
  | c :: cs => by
    unfold splitOnPred
    split
    · simp
    · split <;> simp

theorem splitOnPred_eq_single (p : Char → Bool) (l : Str) (h : l.any p = false) :
    splitOnPred p l = [l] := by
  induction l with
  | nil => rfl
  | cons c cs ih =>
    simp only [List.any_cons, Bool.or_eq_false_iff] at h
    simp [splitOnPred, h.1, ih h.2]

theorem splitOnPred_of_any (p : Char → Bool) (l : Str) (h : l.any p = true) :
    ∃ a b r, splitOnPred p l = a :: b :: r := by
  induction l with
  | nil => simp at h
  | cons c cs ih =>
    by_cases hc : p c = true
    · cases hs : splitOnPred p cs with
      | nil => exact absurd hs (splitOnPred_ne_nil p cs)
      | cons s ss => exact ⟨[], s, ss, by simp [splitOnPred, hc, hs]⟩
    · have hcs : cs.any p = true := by
        simp only [List.any_cons] at h
        simpa [hc] using h
      obtain ⟨a, b, r, hr⟩ := ih hcs
      exact ⟨c :: a, b, r, by simp [splitOnPred, hc, hr]⟩

theorem parseLine_filter_eq_specKeep (i : Nat) (line : Str) :
    Option.filter (fun item => decide (0 < item.char.length)) (parseLine i line)
      = specKeep i line := by
  cases h : line.any isSepChar with
  | false =>
    have hs := splitOnPred_eq_single isSepChar line h
    simp [parseLine, hs, specKeep, h]
  | true =>
    obtain ⟨a, b, r, hr⟩ := splitOnPred_of_any isSepChar line h
    simp only [parseLine, hr, specKeep, h, firstPart, secondPart, List.headI, List.tail]
    by_cases he : trimStr a = []
    · simp [Option.filter, mkPair, he]
    · have hlen : 0 < (trimStr a).length := List.length_pos.mpr he
      simp [Option.filter, mkPair, he, hlen]

theorem filter_filterMap_lines (l : List (Nat × Str)) :
    ((l.filterMap fun x => parseLine x.1 x.2).filter fun item => decide (0 < item.char.length))
      = l.filterMap fun x => specKeep x.1 x.2 := by
  induction l with
  | nil => rfl
  | cons x xs ih =>
    simp only [List.filterMap_cons]
    rw [← parseLine_filter_eq_specKeep x.1 x.2]
    cases hp : parseLine x.1 x.2 with
    | none => simpa [Option.filter] using ih
    | some w =>
      by_cases hc : 0 < w.char.length
      · simp [Option.filter, hc, List.filter_cons, ih]
      · simp [Option.filter, hc, ih]

theorem parseInputData_eq_specParse (text : Str) : parseInputData text = specParse text := by
  by_cases h : text = []
  · subst h; rfl
  · rw [parseInputData, if_neg h, specParse]
    exact filter_filterMap_lines _

theorem recordCorrect_self (s : WordStats) (c : Str) :
    (recordCorrect s c).1 c =
      ⟨(s c).correct + 1, (s c).incorrect, (s c).consecutiveCorrect + 1⟩ := by
  simp [recordCorrect]

theorem recordIncorrect_self (s : WordStats) (c : Str) :
    recordIncorrect s c c = ⟨(s c).correct, (s c).incorrect + 1, 0⟩ := by
  simp [recordIncorrect]

theorem repeatCorrect_consecutive (c : Str) :
    ∀ (n : Nat) (s : WordStats),
      (repeatCorrect n s c c).consecutiveCorrect = (s c).consecutiveCorrect + n
  | 0, s => rfl
  | n + 1, s => by
    rw [repeatCorrect, repeatCorrect_consecutive c n, recordCorrect_self]
    simp
    omega

theorem updateProgress_of_goalMet (p : ProgressState) (h : p.goalMetToday = true) :
    updateProgress p = ({ p with dailyProgress := p.dailyProgress + 1 }, false) := by
  simp [updateProgress, h]

theorem advanceN_of_goalMet :
    ∀ (n : Nat) (p : ProgressState), p.goalMetToday = true →
      (advanceN n p).streak = p.streak ∧ (advanceN n p).goalMetToday = true
  | 0, p, h => ⟨rfl, h⟩
  | n + 1, p, h => by
    rw [advanceN, updateProgress_of_goalMet p h]
    exact advanceN_of_goalMet n _ h

theorem advanceN_streak_le :
    ∀ (n : Nat) (p : ProgressState), (advanceN n p).streak ≤ p.streak + 1
  | 0, _ => Nat.le_succ _
  | n + 1, p => by
    rw [advanceN]
    by_cases hm : p.goalMetToday = true
    · rw [updateProgress_of_goalMet p hm]
      exact le_trans
        (advanceN_of_goalMet n { p with dailyProgress := p.dailyProgress + 1 } hm).1.le
        (Nat.le_succ _)
    · replace hm : p.goalMetToday = false := by
        cases h : p.goalMetToday
        · rfl
        · exact absurd h hm
      by_cases hc : p.dailyGoal ≤ p.dailyProgress + 1
      · have hstep : (updateProgress p).1 =
            { p with dailyProgress := p.dailyProgress + 1, streak := p.streak + 1,
                     goalMetToday := true } := by
          simp [updateProgress, hm, hc]
        rw [hstep]
        exact (advanceN_of_goalMet n _ rfl).1.le
      · have hstep : (updateProgress p).1 = { p with dailyProgress := p.dailyProgress + 1 } := by
          simp [updateProgress, hm, hc]
        rw [hstep]
        exact advanceN_streak_le n _

theorem weight_pos (s : WordStat) : 0 < weight s := by
  unfold weight
  positivity

theorem totalWeight_cons (w : WordPair) (ws : List WordPair) (stats : WordStats) :
    totalWeight (w :: ws) stats = weight (stats w.char) + totalWeight ws stats := by
  simp [totalWeight]

theorem walkSelect_isSome (stats : WordStats) :
    ∀ (l : List WordPair) (r : ℚ), 0 ≤ r → r < totalWeight l stats →
      (walkSelect stats l r).isSome
  | [], r, h0, hlt => by
    simp only [totalWeight, List.map_nil, List.sum_nil] at hlt
    exact absurd (lt_of_le_of_lt h0 hlt) (lt_irrefl 0)
  | w :: ws, r, h0, hlt => by
    rw [walkSelect]
    split
    · rfl
    · rename_i hgt
      push_neg at hgt
      rw [totalWeight_cons] at hlt
      exact walkSelect_isSome stats ws (r - weight (stats w.char)) (le_of_lt hgt)
        (by linarith)

theorem walkSelect_mem (stats : WordStats) :
    ∀ (l : List WordPair) (r : ℚ) (w : WordPair), walkSelect stats l r = some w → w ∈ l
  | [], _, _, h => by simp [walkSelect] at h
  | x :: xs, r, w, h => by
    rw [walkSelect] at h
    split at h
    · exact (Option.some_inj.mp h) ▸ List.mem_cons_self x xs
    · exact List.mem_cons_of_mem x (walkSelect_mem stats xs _ w h)

theorem firstCum_eq_walkSelect (stats : WordStats) :
    ∀ (l : List WordPair) (acc d : ℚ),
      firstCum stats l acc d = walkSelect stats l (d - acc)
  | [], _, _ => rfl
  | w :: ws, acc, d => by
    rw [firstCum, walkSelect]
    by_cases h : d ≤ acc + weight (stats w.char)
    · rw [if_pos h, if_pos (by linarith)]
    · rw [if_neg h, if_neg (by intro hcon; apply h; linarith),
        firstCum_eq_walkSelect stats ws (acc + weight (stats w.char)) d, sub_sub]

theorem setupRound_isSome (σ : List WordPair → List WordPair) (rands : List Nat)
    (l : List WordPair) (stats : WordStats) (draw : ℚ) (hne : l ≠ []) :
    (setupRound σ rands l stats draw).isSome := by
  obtain ⟨w, ws, rfl⟩ := List.exists_cons_of_ne_nil hne
  rfl

theorem setupRound_target_mem (σ : List WordPair → List WordPair) (rands : List Nat)
    (l : List WordPair) (stats : WordStats) (draw : ℚ) (r : Round)
    (h : setupRound σ rands l stats draw = some r) : r.target ∈ l := by
  match l with
  | [] => simp [setupRound] at h
  | w :: ws =>
    have ht : r.target = (walkSelect stats (w :: ws) draw).getD w := by
      rw [setupRound] at h
      exact congrArg Round.target (Option.some_inj.mp h).symm
    rw [ht]
    cases hw : walkSelect stats (w :: ws) draw with
    | none => exact List.mem_cons_self w ws
    | some t => exact walkSelect_mem stats _ _ t hw

theorem length_filter_ne_char (t : WordPair) :
    ∀ l : List WordPair, (l.map WordPair.char).Nodup → t ∈ l →
      ((l.filter fun x => x.char ≠ t.char).length) + 1 = l.length
  | [], _, ht => absurd ht (List.not_mem_nil t)
  | w :: ws, hnd, ht => by
    rw [List.map_cons, List.nodup_cons] at hnd
    rcases List.mem_cons.mp ht with rfl | hmem
    · have hall : ws.filter (fun x => x.char ≠ t.char) = ws := by
        apply List.filter_eq_self.mpr
        intro a ha
        simp only [decide_eq_true_eq]
        intro hchar
        exact hnd.1 (hchar ▸ List.mem_map_of_mem WordPair.char ha)
      rw [List.filter_cons, if_neg (by simp), hall, List.length_cons]
    · have ihl := length_filter_ne_char t ws hnd.2 hmem
      have hwchar : w.char ≠ t.char := by
        intro he
        exact hnd.1 (he ▸ List.mem_map_of_mem WordPair.char hmem)
      rw [List.filter_cons, if_pos (by simp [hwchar]), List.length_cons, List.length_cons]
      omega

theorem forPick_take_two :
    ∀ l : List WordPair, (l.map WordPair.char).Nodup → 2 ≤ l.length →
      forPick l [] = l.take 2
  | [], _, hlen => by simp at hlen
  | [_], _, hlen => by simp at hlen
  | d1 :: d2 :: rest, hnd, _ => by
    have h12 : ¬ d1.char = d2.char := by
      rw [List.map_cons, List.map_cons, List.nodup_cons] at hnd
      intro he
      exact hnd.1 (he ▸ List.mem_cons_self d2.char _)
    simp [forPick, h12]

theorem whileFill_of_full (l : List WordPair) (tchar : Str) (rands : List Nat)
    (acc : List WordPair) (h : acc.length = 2) : whileFill l tchar rands acc = acc := by
  cases rands with
  | nil => rfl
  | cons i is => simp [whileFill, h]

theorem splitOnPred_parts (p : Char → Bool) :
    ∀ l : Str, ∀ s ∈ splitOnPred p l, s.all (fun c => !p c) = true
  | [], s, hs => by
    simp only [splitOnPred, List.mem_singleton] at hs
    subst hs
    rfl
  | c :: cs, s, hs => by
    rw [splitOnPred] at hs
    by_cases hc : p c = true
    · rw [if_pos hc] at hs
      rcases List.mem_cons.mp hs with rfl | hmem
      · rfl
      · exact splitOnPred_parts p cs s hmem
    · rw [if_neg hc] at hs
      cases hsp : splitOnPred p cs with
      | nil => exact absurd hsp (splitOnPred_ne_nil p cs)
      | cons a as =>
        rw [hsp] at hs
        rcases List.mem_cons.mp hs with rfl | hmem
        · have ha := splitOnPred_parts p cs a (hsp ▸ List.mem_cons_self a as)
          rw [Bool.not_eq_true] at hc
          simp [List.all_cons, hc, ha]
        · exact splitOnPred_parts p cs s (hsp ▸ List.mem_cons_of_mem a hmem)

theorem splitOnPred_append_sep (p : Char → Bool) (sep : Char) (hsep : p sep = true) :
    ∀ (a t : Str), a.all (fun c => !p c) = true →
      splitOnPred p (a ++ sep :: t) = a :: splitOnPred p t
  | [], t, _ => by simp [splitOnPred, hsep]
  | c :: a', t, hall => by
    rw [List.all_cons, Bool.and_eq_true] at hall
    have hc : p c = false := by
      have := hall.1
      rwa [Bool.not_eq_true'] at this
    rw [List.cons_append, splitOnPred, if_neg (by simp [hc]),
      splitOnPred_append_sep p sep hsep a' t hall.2]

theorem splitOnPred_joinNL :
    ∀ ls : List Str, ls ≠ [] → (∀ s ∈ ls, s.all (fun c => !isNL c) = true) →
      splitOnPred isNL (joinNL ls) = ls
  | [], h, _ => absurd rfl h
  | [a], _, hall => by
    have hne : a.any isNL = false := by
      rw [← Bool.not_eq_true]
      intro hany
      obtain ⟨c, hc, hpc⟩ := List.any_eq_true.mp hany
      have := List.all_eq_true.mp (hall a (List.mem_singleton_self a)) c hc
      rw [hpc] at this
      exact absurd this (by decide)
    rw [joinNL, List.intersperse_singleton, List.flatten_cons, List.flatten_nil,
      List.append_nil]
    exact splitOnPred_eq_single isNL a hne
  | a :: b :: rest, _, hall => by
    have hj : joinNL (a :: b :: rest) = a ++ '\n' :: joinNL (b :: rest) := by
      rw [joinNL, List.intersperse_cons_cons, List.flatten_cons, List.flatten_cons, joinNL]
      rfl
    rw [hj, splitOnPred_append_sep isNL '\n' rfl a _ (hall a (List.mem_cons_self a _)),
      splitOnPred_joinNL (b :: rest) (List.cons_ne_nil b rest)
        (fun s hs => hall s (List.mem_cons_of_mem a hs))]

theorem char_of_mem_parseInputData (w : WordPair) (text : Str)
    (hw : w ∈ parseInputData text) :
    ∃ line ∈ splitOnPred isNL text, trimStr (firstPart line) = w.char := by
  rw [parseInputData_eq_specParse, specParse] at hw
  obtain ⟨⟨i, line⟩, hmem, hsome⟩ := List.mem_filterMap.mp hw
  have hll := List.mem_enum hmem
  refine ⟨line, hll.2 ▸ List.getElem_mem hll.1, ?_⟩
  rw [specKeep] at hsome
  split at hsome
  · have := Option.some_inj.mp hsome
    rw [← this]
    rfl
  · exact absurd hsome (by simp)

theorem handleMastery_moved (c input learned : Str)
    (hcount : (splitOnPred isNL input).countP (lineMatches c) ≤ 1)
    (hex : ∃ line ∈ splitOnPred isNL input, lineMatches c line = true) :
    (∃ line ∈ splitOnPred isNL input, lineMatches c line = true ∧
       (handleMastery c input learned).2
         = (if learned = [] then [] else learned ++ ['\n']) ++ line)
  ∧ ∀ w ∈ parseInputData (handleMastery c input learned).1, w.char ≠ c := by
  have hfind : ∃ i, (splitOnPred isNL input).findIdx? (lineMatches c) = some i := by
    cases hf : (splitOnPred isNL input).findIdx? (lineMatches c) with
    | none =>
      obtain ⟨line, hl, hm⟩ := hex
      have := List.findIdx?_eq_none_iff.mp hf line hl
      rw [hm] at this
      exact absurd this (by decide)
    | some i => exact ⟨i, rfl⟩
  obtain ⟨i, hi⟩ := hfind
  obtain ⟨hlen, hp, hbefore⟩ := List.findIdx?_eq_some_iff_getElem.mp hi
  have hM : handleMastery c input learned =
      (joinNL ((splitOnPred isNL input).eraseIdx i),
       (if learned = [] then [] else learned ++ ['\n'])
         ++ (splitOnPred isNL input).getD i []) := by
    rw [handleMastery, hi]
  have hgetD : (splitOnPred isNL input).getD i [] = (splitOnPred isNL input)[i] :=
    List.getD_eq_getElem _ _ hlen
  have hzero : ((splitOnPred isNL input).eraseIdx i).countP (lineMatches c) = 0 := by
    have hsplitL : splitOnPred isNL input
        = (splitOnPred isNL input).take i ++ (splitOnPred isNL input).drop i :=
      (List.take_append_drop i _).symm
    have hdropc : (splitOnPred isNL input).drop i
        = (splitOnPred isNL input)[i] :: (splitOnPred isNL input).drop (i + 1) :=
      List.drop_eq_getElem_cons hlen
    have hcnt : (splitOnPred isNL input).countP (lineMatches c)
        = ((splitOnPred isNL input).take i).countP (lineMatches c)
          + (((splitOnPred isNL input).drop (i + 1)).countP (lineMatches c) + 1) := by
      conv_lhs => rw [hsplitL]
      rw [List.countP_append, hdropc, List.countP_cons, if_pos hp]
    rw [List.eraseIdx_eq_take_drop_succ, List.countP_append]
    omega
  have hnomatch : ∀ s ∈ (splitOnPred isNL input).eraseIdx i, lineMatches c s = false := by
    intro s hs
    have := List.countP_eq_zero.mp hzero s hs
    rwa [Bool.not_eq_true] at this
  constructor
  · exact ⟨(splitOnPred isNL input)[i], List.getElem_mem hlen, hp, by rw [hM, hgetD]⟩
  · intro w hw
    rw [hM] at hw
    by_cases hnil : (splitOnPred isNL input).eraseIdx i = []
    · rw [hnil] at hw
      simp [joinNL, parseInputData] at hw
    · have hparts : ∀ s ∈ (splitOnPred isNL input).eraseIdx i,
          s.all (fun ch => !isNL ch) = true := fun s hs =>
        splitOnPred_parts isNL input s ((List.eraseIdx_sublist _ i).subset hs)
      have hsplit : splitOnPred isNL (joinNL ((splitOnPred isNL input).eraseIdx i))
          = (splitOnPred isNL input).eraseIdx i :=
        splitOnPred_joinNL _ hnil hparts
      obtain ⟨line, hl, hlc⟩ := char_of_mem_parseInputData w _ hw
      rw [hsplit] at hl
      have hno := hnomatch line hl
      intro hwc
      rw [lineMatches, hlc, hwc] at hno
      simp at hno

theorem orDefault_some_ne (s d : Str) (h : s ≠ []) : orDefault (some s) d = s := by
  simp [orDefault, h]

theorem orDefault_some_nil (s : Str) : orDefault (some s) [] = s := by
  by_cases h : s = []
  · subst h; rfl
  · simp [orDefault, h]

/-! ## Claim theorems -/

/-- C10: for every input text, `parseInputData` keeps exactly the lines
that contain a separator (ASCII `:` or full-width `：`) and whose first
separated part is non-empty after trimming; each kept line yields the
pair of its trimmed first and second parts, and every other line is
silently dropped. -/
theorem c10_parseInputData_spec (text : Str) : parseInputData text = specParse text :=
  parseInputData_eq_specParse text

/-- C3: `recordCorrect` increments `correct` and `consecutiveCorrect` by
one (returning the latter), `recordIncorrect` increments `incorrect` by
one and resets `consecutiveCorrect` to 0, both leave every other char's
record unchanged; hence after an incorrect answer followed by `n`
correct answers with no intervening incorrect one, `consecutiveCorrect`
is exactly `n`. -/
theorem c3_ledger (s : WordStats) (c x : Str) (n : Nat) (hx : x ≠ c) :
    ((recordCorrect s c).1 c).correct = (s c).correct + 1
  ∧ ((recordCorrect s c).1 c).consecutiveCorrect = (s c).consecutiveCorrect + 1
  ∧ ((recordCorrect s c).1 c).incorrect = (s c).incorrect
  ∧ (recordCorrect s c).2 = (s c).consecutiveCorrect + 1
  ∧ (recordIncorrect s c c).incorrect = (s c).incorrect + 1
  ∧ (recordIncorrect s c c).consecutiveCorrect = 0
  ∧ (recordIncorrect s c c).correct = (s c).correct
  ∧ (recordCorrect s c).1 x = s x
  ∧ recordIncorrect s c x = s x
  ∧ (repeatCorrect n (recordIncorrect s c) c c).consecutiveCorrect = n := by
  refine ⟨?_, ?_, ?_, ?_, ?_, ?_, ?_, ?_, ?_, ?_⟩
  · rw [recordCorrect_self]
  · rw [recordCorrect_self]
  · rw [recordCorrect_self]
  · rfl
  · rw [recordIncorrect_self]
  · rw [recordIncorrect_self]
  · rw [recordIncorrect_self]
  · simp [recordCorrect, hx]
  · simp [recordIncorrect, hx]
  · rw [repeatCorrect_consecutive, recordIncorrect_self]
    simp

theorem c3_ledger_witness :
    ((recordCorrect stats0 "天".data).1 "天".data).correct = 1
  ∧ (recordIncorrect stats0 "天".data "天".data).consecutiveCorrect = 0
  ∧ (recordCorrect stats0 "天".data).1 "地".data = stats0 "地".data
  ∧ (repeatCorrect 3 (recordIncorrect stats0 "天".data) "天".data "天".data).consecutiveCorrect
      = 3 := by
  obtain ⟨h1, -, -, -, -, h6, -, h8, -, h10⟩ :=
    c3_ledger stats0 "天".data "地".data 3 (by decide)
  exact ⟨h1, h6, h8, h10⟩

/-- C4: each `updateProgress` call increments `dailyProgress` by exactly
one; when the new progress reaches the goal and the goal was not yet met
today, the streak increments, the goal-met flag is set and the
celebration event fires; when the goal was already met the progress
still increments but the streak does not; hence over any number of
same-day advances the streak grows by at most one. -/
theorem c4_updateProgress (p : ProgressState) :
    (updateProgress p).1.dailyProgress = p.dailyProgress + 1
  ∧ (p.dailyGoal ≤ p.dailyProgress + 1 → p.goalMetToday = false →
       (updateProgress p).1.streak = p.streak + 1
     ∧ (updateProgress p).1.goalMetToday = true
     ∧ (updateProgress p).2 = true)
  ∧ (p.goalMetToday = true →
       (updateProgress p).1.streak = p.streak
     ∧ (updateProgress p).1.dailyProgress = p.dailyProgress + 1
     ∧ (updateProgress p).2 = false)
  ∧ (∀ n, (advanceN n p).streak ≤ p.streak + 1) := by
  refine ⟨?_, ?_, ?_, fun n => advanceN_streak_le n p⟩
  · by_cases hc : p.dailyGoal ≤ p.dailyProgress + 1 ∧ p.goalMetToday = false
    · simp [updateProgress, hc.1, hc.2]
    · rcases Decidable.not_and_iff_or_not.mp hc with h | h
      · simp [updateProgress, h]
      · have hm : p.goalMetToday = true := by
          cases hg : p.goalMetToday
          · exact absurd hg h
          · rfl
        simp [updateProgress, hm]
  · intro hc hm
    simp [updateProgress, hc, hm]
  · intro hm
    rw [updateProgress_of_goalMet p hm]
    exact ⟨rfl, rfl, rfl⟩

theorem c4_updateProgress_witness :
    (updateProgress ⟨10, 9, 3, false⟩).1.dailyProgress = 10
  ∧ (updateProgress ⟨10, 9, 3, false⟩).1.streak = 4
  ∧ (updateProgress ⟨10, 9, 3, false⟩).2 = true
  ∧ (advanceN 5 ⟨10, 9, 3, false⟩).streak ≤ 4 := by
  obtain ⟨h1, h2, -, h4⟩ := c4_updateProgress ⟨10, 9, 3, false⟩
  obtain ⟨h2a, -, h2c⟩ := h2 (by decide) rfl
  exact ⟨h1, h2a, h2c, h4 5⟩

/-- C2: on a correct answer (`selected.id == target.id`) the target's
record gains one `correct` and one `consecutiveCorrect` (its `incorrect`
untouched); mastery is signalled exactly when the post-update
`consecutiveCorrect` reaches `MASTERY_THRESHOLD` (20); the ledger is
exactly the `recordCorrect` result, untouched by the mastery move; and
on mastery the item's (unique) line leaves the input text and is
appended to the learned text, after which no item of the reparsed active
pool — and hence no target of any later round — carries the mastered
`char`. -/
theorem c2_correct_and_mastery (st : CoreSt) (selected target : WordPair)
    (hid : selected.id = target.id)
    (hone : (splitOnPred isNL st.input).countP (lineMatches target.char) ≤ 1)
    (hmem : target ∈ parseInputData st.input) :
    ((handleOptionClick selected target st).1.stats target.char).correct
        = (st.stats target.char).correct + 1
  ∧ ((handleOptionClick selected target st).1.stats target.char).consecutiveCorrect
        = (st.stats target.char).consecutiveCorrect + 1
  ∧ ((handleOptionClick selected target st).1.stats target.char).incorrect
        = (st.stats target.char).incorrect
  ∧ (handleOptionClick selected target st).1.stats = (recordCorrect st.stats target.char).1
  ∧ ((handleOptionClick selected target st).2.2 = true
        ↔ MASTERY_THRESHOLD ≤ (st.stats target.char).consecutiveCorrect + 1)
  ∧ ((handleOptionClick selected target st).2.2 = true →
       (∃ line ∈ splitOnPred isNL st.input, lineMatches target.char line = true ∧
          (handleOptionClick selected target st).1.learned
            = (if st.learned = [] then [] else st.learned ++ ['\n']) ++ line)
     ∧ (∀ w ∈ parseInputData (handleOptionClick selected target st).1.input,
          w.char ≠ target.char)
     ∧ (∀ (σ : List WordPair → List WordPair) (rands : List Nat) (stats2 : WordStats)
          (d : ℚ) (r : Round),
            setupRound σ rands (parseInputData (handleOptionClick selected target st).1.input)
                stats2 d = some r →
              r.target.char ≠ target.char)) := by
  by_cases hm : MASTERY_THRESHOLD ≤ (st.stats target.char).consecutiveCorrect + 1
  · have hunfold : handleOptionClick selected target st =
        (⟨(recordCorrect st.stats target.char).1,
          (handleMastery target.char st.input st.learned).1,
          (handleMastery target.char st.input st.learned).2⟩, true, true) := by
      rw [handleOptionClick, if_pos hid]
      simp only [recordCorrect]
      rw [if_pos (by simpa [recordCorrect] using hm)]
    have hex : ∃ line ∈ splitOnPred isNL st.input, lineMatches target.char line = true := by
      obtain ⟨line, hl, hc⟩ := char_of_mem_parseInputData target st.input hmem
      exact ⟨line, hl, by simp [lineMatches, hc]⟩
    obtain ⟨hline, habsent⟩ :=
      handleMastery_moved target.char st.input st.learned hone hex
    rw [hunfold]
    refine ⟨by simp [recordCorrect_self], by simp [recordCorrect_self],
      by simp [recordCorrect_self], rfl, by simpa using hm, fun _ => ⟨hline, habsent, ?_⟩⟩
    intro σ rands stats2 d r hr hchar
    exact habsent r.target (setupRound_target_mem σ rands _ stats2 d r hr) hchar
  · have hunfold : handleOptionClick selected target st =
        (⟨(recordCorrect st.stats target.char).1, st.input, st.learned⟩, true, false) := by
      rw [handleOptionClick, if_pos hid]
      simp only [recordCorrect]
      rw [if_neg (by simpa [recordCorrect] using hm)]
    rw [hunfold]
    refine ⟨by simp [recordCorrect_self], by simp [recordCorrect_self],
      by simp [recordCorrect_self], rfl, by simpa using hm, by simp⟩

theorem c2_correct_and_mastery_witness :
    ((handleOptionClick w1 w1 coreStNearMastery).1.stats w1.char).consecutiveCorrect = 20
  ∧ (handleOptionClick w1 w1 coreStNearMastery).2.2 = true
  ∧ ∀ w ∈ parseInputData (handleOptionClick w1 w1 coreStNearMastery).1.input,
      w.char ≠ w1.char := by
  obtain ⟨-, h2, -, -, h5, h6⟩ := c2_correct_and_mastery coreStNearMastery w1 w1 rfl
    (by decide) (by decide)
  have hmast : (handleOptionClick w1 w1 coreStNearMastery).2.2 = true :=
    h5.mpr (by decide)
  exact ⟨by rw [h2]; decide, hmast, (h6 hmast).2.1⟩

/-- C1: on a non-empty pool, `setupRound` always produces a round (the
target is never unset, whatever the draw), and for a draw in
`[0, totalWeight)` the target is exactly the roulette-wheel pick: the
first item in pool order whose cumulative weight — weights being
`10 * (1 + incorrect*3) / (1 + correct*0.5)` — reaches the draw; that
pick always exists for such draws, so the fallback never fires. -/
theorem c1_setupRound_roulette (σ : List WordPair → List WordPair) (rands : List Nat)
    (l : List WordPair) (stats : WordStats) (draw : ℚ)
    (hne : l ≠ []) (h0 : 0 ≤ draw) (hlt : draw < totalWeight l stats) :
    (∀ d : ℚ, ∃ r, setupRound σ rands l stats d = some r)
  ∧ (firstCum stats l 0 draw).isSome
  ∧ ∃ r, setupRound σ rands l stats draw = some r
       ∧ some r.target = firstCum stats l 0 draw := by
  have hsome : (walkSelect stats l draw).isSome := walkSelect_isSome stats l draw h0 hlt
  obtain ⟨t, ht⟩ := Option.isSome_iff_exists.mp hsome
  have hcum : firstCum stats l 0 draw = walkSelect stats l draw := by
    rw [firstCum_eq_walkSelect, sub_zero]
  refine ⟨fun d => Option.isSome_iff_exists.mp (setupRound_isSome σ rands l stats d hne),
    by rw [hcum]; exact hsome, ?_⟩
  obtain ⟨w, ws, rfl⟩ := List.exists_cons_of_ne_nil hne
  refine ⟨_, rfl, ?_⟩
  rw [hcum, ht]
  rfl

/-- C6: for a pool of at least three items with pairwise-distinct
`char` values, every round `setupRound` produces has exactly three
options, the options contain the target, and no two options share a
`char` — whatever the shuffle (any permutation) and the random
draws. -/
theorem c6_round_options (σ : List WordPair → List WordPair) (rands : List Nat)
    (l : List WordPair) (stats : WordStats) (draw : ℚ) (r : Round)
    (hσ : ∀ xs, (σ xs).Perm xs)
    (hnd : (l.map WordPair.char).Nodup)
    (hlen : 3 ≤ l.length)
    (h : setupRound σ rands l stats draw = some r) :
    r.options.length = 3 ∧ r.target ∈ r.options
  ∧ (r.options.map WordPair.char).Nodup := by
  have htmem := setupRound_target_mem σ rands l stats draw r h
  match l, hnd, hlen, h, htmem with
  | w :: ws, hnd, hlen, h, htmem =>
  rw [setupRound] at h
  set t := (walkSelect stats (w :: ws) draw).getD w with hre
  set potential := (w :: ws).filter (fun x => x.char ≠ t.char) with hpot
  have hr : r = ⟨t, σ (t :: whileFill (w :: ws) t.char rands (forPick (σ potential) []))⟩ :=
    (Option.some_inj.mp h).symm
  have htm : t ∈ w :: ws := by rw [hr] at htmem; exact htmem
  have hpnd : (potential.map WordPair.char).Nodup :=
    hnd.sublist ((List.filter_sublist _).map WordPair.char)
  have hplen : 2 ≤ potential.length := by
    have := length_filter_ne_char t (w :: ws) hnd htm
    rw [← hpot] at this
    omega
  have hperm := hσ potential
  have hsnd : ((σ potential).map WordPair.char).Nodup :=
    (hperm.map WordPair.char).nodup_iff.mpr hpnd
  have hslen : 2 ≤ (σ potential).length := hperm.length_eq ▸ hplen
  have hfp : forPick (σ potential) [] = (σ potential).take 2 :=
    forPick_take_two _ hsnd hslen
  have hftlen : ((σ potential).take 2).length = 2 := by
    rw [List.length_take]
    omega
  have hwf : whileFill (w :: ws) t.char rands ((σ potential).take 2) = (σ potential).take 2 :=
    whileFill_of_full _ _ _ _ hftlen
  have hoptperm : (σ (t :: (σ potential).take 2)).Perm (t :: (σ potential).take 2) := hσ _
  have htake_sub : ((σ potential).take 2).Sublist (σ potential) := List.take_sublist 2 _
  have htknd : (((σ potential).take 2).map WordPair.char).Nodup :=
    hsnd.sublist (htake_sub.map WordPair.char)
  have htchar : t.char ∉ ((σ potential).take 2).map WordPair.char := by
    intro hmem
    obtain ⟨x, hx, hxc⟩ := List.mem_map.mp hmem
    have hxp : x ∈ potential := hperm.mem_iff.mp (htake_sub.mem hx)
    have := List.of_mem_filter hxp
    rw [decide_eq_true_eq] at this
    exact this hxc
  rw [hr, hfp, hwf]
  refine ⟨?_, ?_, ?_⟩
  · rw [hoptperm.length_eq, List.length_cons, hftlen]
  · exact hoptperm.mem_iff.mpr (List.mem_cons_self _ _)
  · refine ((hoptperm.map WordPair.char).nodup_iff).mpr ?_
    rw [List.map_cons, List.nodup_cons]
    exact ⟨htchar, htknd⟩

theorem c6_round_options_witness :
    setupRound id [] [w1, w2, w3] stats0 15 = some ⟨w2, [w2, w1, w3]⟩
  ∧ ([w2, w1, w3] : List WordPair).length = 3 ∧ w2 ∈ [w2, w1, w3]
  ∧ (([w2, w1, w3].map WordPair.char)).Nodup := by
  have hs : setupRound id [] [w1, w2, w3] stats0 15 = some ⟨w2, [w2, w1, w3]⟩ := by
    norm_num [setupRound, walkSelect, weight, stats0, zeroStat, forPick, whileFill,
      w1, w2, w3]
    decide
  have := c6_round_options id [] [w1, w2, w3] stats0 15 ⟨w2, [w2, w1, w3]⟩
    (fun xs => List.Perm.refl xs) (by decide) (by decide) hs
  exact ⟨hs, this⟩

theorem c1_setupRound_roulette_witness :
    (∃ r, setupRound id [] [w1, w2, w3] stats0 15 = some r
        ∧ some r.target = firstCum stats0 [w1, w2, w3] 0 15)
  ∧ firstCum stats0 [w1, w2, w3] 0 15 = some w2 := by
  obtain ⟨-, -, h⟩ := c1_setupRound_roulette id [] [w1, w2, w3] stats0 15 (by decide)
    (by norm_num) (by norm_num [totalWeight, weight, stats0, zeroStat])
  exact ⟨h, by norm_num [firstCum, weight, stats0, zeroStat]⟩

/-- C5 (amended): on rollover (stored last-active date differs from
today's) the daily progress resets to 0, the goal-met state resets, and
the stored last-active date becomes today; the streak resets to 0
exactly when the stored goal-met flag is not `'true'` AND
`Math.ceil(|now − lastMidnight| / oneDay) > 1` — a condition that holds
for ANY change of calendar day unless `now` is exactly midnight, so a
one-day gap preserves an unmet-goal streak only at exact midnight; a
goal-met previous day always preserves the streak. -/
theorem c5_rollover (st : Store) (now lastDay : Nat) (s : Str)
    (hlast : st.lastDate = some s)
    (hparse : parseDay s = some lastDay)
    (hroll : s ≠ dayStr (now / dayMs)) :
    (loadProgress st now).1.dailyProgress = some 0
  ∧ (loadProgress st now).1.goalMetToday = false
  ∧ (loadProgress st now).2.lastDate = some (dayStr (now / dayMs))
  ∧ (loadProgress st now).2.dailyProgress = some ['0']
  ∧ (loadProgress st now).2.goalMet = some "false".data
  ∧ (loadProgress st now).1.streak =
      (if 1 < ceilDiv (Int.natAbs ((now : Int) - (lastDay * dayMs : Nat))) dayMs
          ∧ st.goalMet ≠ some "true".data
       then some 0
       else jsParseInt (orDefault st.streak ['0']))
  ∧ (st.goalMet = some "true".data →
       (loadProgress st now).1.streak = jsParseInt (orDefault st.streak ['0'])) := by
  by_cases hmiss : 1 < ceilDiv (Int.natAbs ((now : Int) - (lastDay * dayMs : Nat))) dayMs <;>
    by_cases hgm : st.goalMet = some "true".data <;>
      [skip; skip; skip; skip] <;>
    simp only [Nat.cast_mul] at hmiss <;>
      simp [loadProgress, hlast, hparse, hroll, hmiss, hgm]

theorem c5_rollover_witness :
    (loadProgress storeDay0 noonDay1).1.dailyProgress = some 0
  ∧ (loadProgress storeDay0 noonDay1).2.lastDate = some (dayStr (noonDay1 / dayMs))
  ∧ (loadProgress storeDay0 noonDay1).1.streak = some 0 := by
  obtain ⟨h1, -, h3, -, -, h6, -⟩ :=
    c5_rollover storeDay0 noonDay1 0 ['0'] rfl (by decide) (by decide)
  refine ⟨h1, h3, ?_⟩
  rw [h6, if_pos ⟨by decide, by decide⟩]

/-- C5 counterexample: with the last-active date exactly one calendar
day in the past (day 0, loaded at noon of day 1), a stored streak of 5
and the goal not met, the code RESETS the streak to 0 — the claim says a
gap of exactly one calendar day preserves it.  `Math.ceil` of the
elapsed time from the stored day's midnight is 2 here, not 1. -/
theorem c5_counterexample :
    noonDay1 / dayMs = 1
  ∧ parseDay "0".data = some 0
  ∧ storeDay0.lastDate = some "0".data
  ∧ storeDay0.goalMet ≠ some "true".data
  ∧ jsParseInt (orDefault storeDay0.streak ['0']) = some 5
  ∧ (loadProgress storeDay0 noonDay1).1.streak = some 0 := by
  decide

/-- C7: the claim (and spec §7) demands that a malformed stored counter
load as the zero/default value; the code's `parseInt(getItem(k) || '0')`
only defaults the ABSENT (or empty) case, and parses a present
non-numeric string such as `"abc"` to `NaN` (modelled `none`), which
then lives in the in-memory counter. -/
theorem c7_malformed_counter :
    (loadProgress storeBadScore 0).1.score = none
  ∧ jsParseInt "abc".data = none
  ∧ (loadProgress { storeBadScore with totalScore := none } 0).1.score = some 0 := by
  decide

/-- C8: a payload with no `data` aborts with the store untouched, but a
payload WITH `data` is applied per-field: importing
`{data: {input: "X:Y", totalScore: null}}` writes the input, then
throws on `totalScore.toString()` — the import aborts having already
mutated part of the store, contradicting the claim's all-or-nothing
guarantee. -/
theorem c8_partial_import :
    (∀ st : Store, handleFileChange none st = (st, false))
  ∧ handleFileChange (some payloadPartial) storeBeforeImport
      = ({ storeBeforeImport with input := some "X:Y".data }, false)
  ∧ ({ storeBeforeImport with input := some "X:Y".data } : Store) ≠ storeBeforeImport := by
  exact ⟨fun st => rfl, by decide, by decide⟩

/-- C9 (amended): export-then-import is the identity on every persisted
field for stores in canonical form: every field present, input/stats
non-empty, the stats string exactly `JSON.stringify` of its parse, and
each numeric counter the canonical decimal rendering of its value. -/
theorem c9_roundtrip (st : Store)
    (si : Str) (hi : st.input = some si) (hine : si ≠ [])
    (sl : Str) (hl : st.learned = some sl)
    (ss : Str) (o : JStats) (hs : st.stats = some ss) (hsne : ss ≠ [])
    (hsp : statsParse ss = some o) (hss : statsStringify o = ss)
    (ts : Str) (nts : Int) (hts : st.totalScore = some ts) (htsne : ts ≠ [])
    (htsp : jsParseInt ts = some nts) (htss : intToStr nts = ts)
    (sk : Str) (nsk : Int) (hsk : st.streak = some sk) (hskne : sk ≠ [])
    (hskp : jsParseInt sk = some nsk) (hsks : intToStr nsk = sk)
    (dg : Str) (ndg : Int) (hdg : st.dailyGoal = some dg) (hdgne : dg ≠ [])
    (hdgp : jsParseInt dg = some ndg) (hdgs : intToStr ndg = dg)
    (dp : Str) (ndp : Int) (hdp : st.dailyProgress = some dp) (hdpne : dp ≠ [])
    (hdpp : jsParseInt dp = some ndp) (hdps : intToStr ndp = dp)
    (ld : Str) (hld : st.lastDate = some ld)
    (gm : Str) (hgm : st.goalMet = some gm) :
    roundTrip st = some (st, true) := by
  have hexp : handleExportData st = some
      ⟨some si, some sl, some o, some (some nts), some (some nsk), some (some ndg),
       some (some ndp), some (some ld), some (some gm)⟩ := by
    rw [handleExportData, hs, orDefault_some_ne _ _ hsne, hsp, hi,
      orDefault_some_ne _ _ hine, hl, orDefault_some_nil, hts,
      orDefault_some_ne _ _ htsne, htsp, hsk, orDefault_some_ne _ _ hskne, hskp,
      hdg, orDefault_some_ne _ _ hdgne, hdgp, hdp, orDefault_some_ne _ _ hdpne,
      hdpp, hld, hgm]
  rw [roundTrip, hexp, Option.map_some']
  refine congrArg some ?_
  simp only [applyImport]
  rw [hss, htss, hsks, hdgs, hdps, ← hi, ← hl, ← hs, ← hts, ← hsk, ← hdg, ← hdp,
    ← hld, ← hgm]

theorem c9_roundtrip_witness : roundTrip storeCanon = some (storeCanon, true) :=
  c9_roundtrip storeCanon
    "a:b".data rfl (by decide)
    [] rfl
    (statsStringify [("a".data, ⟨1, 2, 3⟩)]) [("a".data, ⟨1, 2, 3⟩)] rfl (by decide)
    (by decide) rfl
    ['0'] 0 rfl (by decide) (by decide) (by decide)
    "5".data 5 rfl (by decide) (by decide) (by decide)
    "10".data 10 rfl (by decide) (by decide) (by decide)
    ['7'] 7 rfl (by decide) (by decide) (by decide)
    "123".data rfl
    "true".data rfl

/-- C9 counterexample: a store whose streak is stored as `"007"` is
changed by the export/import round trip — the exported value is the
parsed number 7 and the import writes back `"7"` — so the round trip is
not the identity on every persisted state. -/
theorem c9_counterexample :
    (roundTrip storeNonCanon).isSome
  ∧ roundTrip storeNonCanon ≠ some (storeNonCanon, true)
  ∧ (roundTrip storeNonCanon).map (fun p => p.1.streak) = some (some ['7'])
  ∧ storeNonCanon.streak = some "007".data := by
  decide

end WordWizard
